import Mathlib

/-!
Shallow embedding of the algorithmic core of the omnii-dashboard repository:

* `getHeartbeatStatus` from `src/routes/instances.$id.tsx` — the heartbeat
  staleness classifier mapping a nullable last-seen timestamp to a color tier,
  display label and description;
* the `useMemo` aggregation body of `ConnectivitySummary` and the chart-data
  pipeline of `ConnectivityLatencyChart` from
  `src/components/connectivity-charts.tsx`.

Modelling conventions:

* JavaScript numbers holding epoch-millisecond timestamps are modelled as
  `Int`.  Every division in the source is `Math.floor(x / k)` with a positive
  literal `k`; on `Int` the `/` operator is Euclidean division, which for a
  positive divisor coincides with floor division, so `x / k` below is exactly
  `Math.floor` semantics (also on negative `x`).
* The source reads `Date.now()` inside `getHeartbeatStatus`; the embedding
  makes that read an explicit `now` parameter, so the embedded function is the
  mathematical function of `(lastSeen, now)` that the source computes.
* JavaScript truthiness: `!lastSeen` is true for `null` and for `0`;
  `check.publicIp` is truthy iff it is a present non-empty string;
  `check.latencyMs` is truthy iff it is present and non-zero.
* `Array.prototype.sort` with a numeric comparator is a stable sort; it is
  modelled by a stable insertion sort on `List`.
* `Date.prototype.toLocaleDateString` and `toLocaleTimeString` are external,
  locale-dependent formatters; they are modelled at their observable
  granularity for a fixed (UTC-like) locale: a calendar-date string determined
  by the epoch day of the timestamp, and an hour:minute string determined by
  the minute of day.
-/

/-- Color tier returned by `getHeartbeatStatus` (`green`/`yellow`/`red`/`gray`
in the source correspond to fresh / slightly-stale / stale / unknown). -/
inductive Color where
  | green
  | yellow
  | red
  | gray
deriving DecidableEq

/-- Return shape of `getHeartbeatStatus`: a color tier, a display label and a
description string. -/
structure HeartbeatStatus where
  color : Color
  label : String
  description : String
deriving DecidableEq

/-- Model of `new Date(ms).toLocaleDateString()`: a localized calendar-date
string.  Modelled at day granularity for a fixed UTC-like locale: timestamps
on the same epoch day format equal, timestamps on different epoch days format
differently. -/
def toLocaleDateString (ms : Int) : String :=
  "epochDay " ++ toString (ms / 86400000)

/-- Label computation of `getHeartbeatStatus` (lines 57-69 of
`src/routes/instances.$id.tsx`), as a function of `diffMs = now - lastSeen`
and of `lastSeen` itself (the calendar-date branch formats `lastSeen`). -/
def heartbeatLabel (diffMs lastSeen : Int) : String :=
  let diffSeconds := diffMs / 1000
  let diffMinutes := diffSeconds / 60
  if diffSeconds < 60 then
    if diffSeconds ≤ 1 then "Just now" else toString diffSeconds ++ "s ago"
  else if diffMinutes < 60 then
    toString diffMinutes ++ "m ago"
  else
    let diffHours := diffMinutes / 60
    if diffHours < 24 then
      toString diffHours ++ "h ago"
    else
      toLocaleDateString lastSeen

/-- Embedding of `getHeartbeatStatus` (lines 43-78 of
`src/routes/instances.$id.tsx`).  `none` models a `null` timestamp.  The
source guard `if (!lastSeen)` is JavaScript truthiness, so it also fires on a
present timestamp equal to `0`.  The source reads `Date.now()`; here that
read is the explicit `now` parameter. -/
def getHeartbeatStatus (lastSeen : Option Int) (now : Int) : HeartbeatStatus :=
  match lastSeen with
  | none => ⟨Color.gray, "Never", "No heartbeat received"⟩
  | some l =>
    if l = 0 then ⟨Color.gray, "Never", "No heartbeat received"⟩
    else
      let diffMs := now - l
      let diffMinutes := diffMs / 1000 / 60
      if diffMinutes < 1 then
        ⟨Color.green, heartbeatLabel diffMs l, "Recently active"⟩
      else if diffMinutes < 5 then
        ⟨Color.yellow, heartbeatLabel diffMs l, "Slightly stale"⟩
      else
        ⟨Color.red, heartbeatLabel diffMs l, "Unreachable"⟩

/-- Spec-side classifier, written from the words of the specification §4.1:
`elapsed = max(0, nowMs − lastSeenMs)`, `elapsedSeconds = floor(elapsed/1000)`,
`elapsedMinutes = floor(elapsedSeconds/60)`, with the same tier thresholds and
label formatting rules.  Used to compare the source classifier against the
clamped computation the spec describes. -/
def specClassifyClamped (lastSeen now : Int) : HeartbeatStatus :=
  let elapsed := max 0 (now - lastSeen)
  let elapsedSeconds := elapsed / 1000
  let elapsedMinutes := elapsedSeconds / 60
  let label :=
    if elapsedSeconds < 60 then
      if elapsedSeconds ≤ 1 then "Just now" else toString elapsedSeconds ++ "s ago"
    else if elapsedMinutes < 60 then
      toString elapsedMinutes ++ "m ago"
    else
      let elapsedHours := elapsedMinutes / 60
      if elapsedHours < 24 then
        toString elapsedHours ++ "h ago"
      else
        toLocaleDateString lastSeen
  if elapsedMinutes < 1 then
    ⟨Color.green, label, "Recently active"⟩
  else if elapsedMinutes < 5 then
    ⟨Color.yellow, label, "Slightly stale"⟩
  else
    ⟨Color.red, label, "Unreachable"⟩

/-- Connectivity-check record (the `ConnectivityCheck` API type as used by
`src/components/connectivity-charts.tsx`): probe target, epoch-millisecond
timestamp, status string, optional latency, optional public-IP metadata. -/
structure ConnectivityCheck where
  target : String
  timestamp : Int
  status : String
  latencyMs : Option Int
  publicIp : Option String
  ipIsp : Option String
  ipAsn : Option String
  ipCountry : Option String
  ipRegion : Option String
deriving DecidableEq

/-- Stable insertion step for a descending-by-timestamp sort: the new element
goes in front of the first element whose timestamp it reaches. -/
def insertDescByTimestamp (a : ConnectivityCheck) :
    List ConnectivityCheck → List ConnectivityCheck
  | [] => [a]
  | d :: rest =>
    if d.timestamp ≤ a.timestamp then a :: d :: rest
    else d :: insertDescByTimestamp a rest

/-- Model of `[...checks].sort((a, b) => b.timestamp - a.timestamp)`: a stable
sort, descending by timestamp. -/
def sortDescByTimestamp (l : List ConnectivityCheck) : List ConnectivityCheck :=
  l.foldr insertDescByTimestamp []

/-- Model of the `Map`-insertion loop of `ConnectivitySummary` followed by
`Array.from(map.values())`: walk the list, keep each record whose target key
is not yet present, in first-insertion order.  `seen` is the set of keys
already in the map. -/
def dedupeByTarget :
    List ConnectivityCheck → List String → List ConnectivityCheck
  | [], _ => []
  | c :: rest, seen =>
    if c.target ∈ seen then dedupeByTarget rest seen
    else c :: dedupeByTarget rest (c.target :: seen)

/-- JavaScript truthiness of `check.publicIp` (`string | undefined`): truthy
iff present and non-empty. -/
def hasPublicIp (c : ConnectivityCheck) : Bool :=
  match c.publicIp with
  | none => false
  | some s => !s.isEmpty

/-- Value computed by the `useMemo` of `ConnectivitySummary`. -/
structure ConnectivitySummaryResult where
  latestByTarget : List ConnectivityCheck
  latestWithIp : Option ConnectivityCheck
deriving DecidableEq

/-- Embedding of the `useMemo` aggregation of `ConnectivitySummary` (lines
43-62 of `src/components/connectivity-charts.tsx`): on empty input return the
empty summary; otherwise sort a spread copy descending by timestamp, keep the
first record per target, and find the first record with a truthy `publicIp`
(`latestIp ?? null` is the `Option`). -/
def summarize (checks : List ConnectivityCheck) : ConnectivitySummaryResult :=
  if checks.length = 0 then ⟨[], none⟩
  else
    let sorted := sortDescByTimestamp checks
    ⟨dedupeByTarget sorted [], sorted.find? hasPublicIp⟩

/-- Model of the array spread `[...checks]`: a fresh list with the same
elements. -/
def spreadCopy (l : List ConnectivityCheck) : List ConnectivityCheck :=
  l.foldr List.cons []

/-- Mutation-tracking version of `summarize`: alongside the summary it returns
the final contents of the caller-supplied `checks` array.  In the source the
in-place `Array.prototype.sort` is applied to the spread copy `[...checks]`,
never to `checks` itself, so the input array is returned unchanged. -/
def summarizeTracked (checks : List ConnectivityCheck) :
    ConnectivitySummaryResult × List ConnectivityCheck :=
  if checks.length = 0 then (⟨[], none⟩, checks)
  else
    let sorted := sortDescByTimestamp (spreadCopy checks)
    (⟨dedupeByTarget sorted [], sorted.find? hasPublicIp⟩, checks)

/-- JavaScript truthiness of `check.latencyMs` (`number | undefined`): truthy
iff present and non-zero. -/
def latencyTruthy (c : ConnectivityCheck) : Bool :=
  match c.latencyMs with
  | none => false
  | some v => decide (v ≠ 0)

/-- Two-digit zero padding for the hour and minute fields. -/
def pad2 (n : Int) : String :=
  if n < 10 then "0" ++ toString n else toString n

/-- Model of `formatTime` (`toLocaleTimeString` with 2-digit hour and minute):
an hour:minute wall-clock string, for a fixed UTC-like locale, determined by
the minute of day of the timestamp. -/
def formatTime (ms : Int) : String :=
  let minutesOfDay := ms / 60000 % 1440
  pad2 (minutesOfDay / 60) ++ ":" ++ pad2 (minutesOfDay % 60)

/-- Stable insertion step for an ascending-by-timestamp sort. -/
def insertAscByTimestamp (a : ConnectivityCheck) :
    List ConnectivityCheck → List ConnectivityCheck
  | [] => [a]
  | d :: rest =>
    if a.timestamp ≤ d.timestamp then a :: d :: rest
    else d :: insertAscByTimestamp a rest

/-- Model of `.sort((a, b) => a.timestamp - b.timestamp)`: a stable sort,
ascending by timestamp. -/
def sortAscByTimestamp (l : List ConnectivityCheck) : List ConnectivityCheck :=
  l.foldr insertAscByTimestamp []

/-- Records selected and ordered by the `chartData` memo of
`ConnectivityLatencyChart` (lines 121-129 of
`src/components/connectivity-charts.tsx`), before the display mapping: filter
to the given target with truthy `latencyMs`, then sort ascending by
timestamp. -/
def chartRecords (checks : List ConnectivityCheck) (target : String) :
    List ConnectivityCheck :=
  sortAscByTimestamp (checks.filter (fun c => c.target == target && latencyTruthy c))

/-- One chart point: formatted time and the (still optional) latency field,
exactly as built by the source mapping step. -/
structure LatencyPoint where
  time : String
  latency : Option Int
deriving DecidableEq

/-- Embedding of the full `chartData` pipeline of `ConnectivityLatencyChart`:
filter, ascending sort, then map each record to its display point. -/
def latencySeries (checks : List ConnectivityCheck) (target : String) :
    List LatencyPoint :=
  (chartRecords checks target).map (fun c => ⟨formatTime c.timestamp, c.latencyMs⟩)

/-! Shared lemmas about the sorting, deduplication and search steps. -/

theorem perm_insertDescByTimestamp (a : ConnectivityCheck) (l : List ConnectivityCheck) :
    List.Perm (insertDescByTimestamp a l) (a :: l) := by
  induction l with
  | nil => simp [insertDescByTimestamp]
  | cons d rest ih =>
    simp only [insertDescByTimestamp]
    split
    · exact List.Perm.refl _
    · exact ((ih.cons d).trans (List.Perm.swap a d rest))

theorem perm_sortDescByTimestamp (l : List ConnectivityCheck) :
    List.Perm (sortDescByTimestamp l) l := by
  induction l with
  | nil => simp [sortDescByTimestamp]
  | cons a rest ih =>
    simp only [sortDescByTimestamp, List.foldr_cons]
    exact (perm_insertDescByTimestamp a _).trans (ih.cons a)

theorem pairwise_insertDescByTimestamp (a : ConnectivityCheck) (l : List ConnectivityCheck)
    (h : List.Pairwise (fun x y => y.timestamp ≤ x.timestamp) l) :
    List.Pairwise (fun x y => y.timestamp ≤ x.timestamp) (insertDescByTimestamp a l) := by
  induction l with
  | nil => simp [insertDescByTimestamp]
  | cons d rest ih =>
    simp only [insertDescByTimestamp]
    rcases h with _ | ⟨hd, hrest⟩
    split
    · refine List.Pairwise.cons ?_ (List.Pairwise.cons hd hrest)
      intro b hb
      rcases List.mem_cons.mp hb with rfl | hb
      · omega
      · have := hd b hb; omega
    · refine List.Pairwise.cons ?_ (ih hrest)
      intro b hb
      have hmem : b ∈ a :: rest := (perm_insertDescByTimestamp a rest).mem_iff.mp hb
      rcases List.mem_cons.mp hmem with rfl | hbm
      · omega
      · exact hd b hbm

theorem pairwise_sortDescByTimestamp (l : List ConnectivityCheck) :
    List.Pairwise (fun x y => y.timestamp ≤ x.timestamp) (sortDescByTimestamp l) := by
  induction l with
  | nil => simp [sortDescByTimestamp]
  | cons a rest ih => exact pairwise_insertDescByTimestamp a _ ih

theorem perm_insertAscByTimestamp (a : ConnectivityCheck) (l : List ConnectivityCheck) :
    List.Perm (insertAscByTimestamp a l) (a :: l) := by
  induction l with
  | nil => simp [insertAscByTimestamp]
  | cons d rest ih =>
    simp only [insertAscByTimestamp]
    split
    · exact List.Perm.refl _
    · exact ((ih.cons d).trans (List.Perm.swap a d rest))

theorem perm_sortAscByTimestamp (l : List ConnectivityCheck) :
    List.Perm (sortAscByTimestamp l) l := by
  induction l with
  | nil => simp [sortAscByTimestamp]
  | cons a rest ih =>
    simp only [sortAscByTimestamp, List.foldr_cons]
    exact (perm_insertAscByTimestamp a _).trans (ih.cons a)

theorem pairwise_insertAscByTimestamp (a : ConnectivityCheck) (l : List ConnectivityCheck)
    (h : List.Pairwise (fun x y => x.timestamp ≤ y.timestamp) l) :
    List.Pairwise (fun x y => x.timestamp ≤ y.timestamp) (insertAscByTimestamp a l) := by
  induction l with
  | nil => simp [insertAscByTimestamp]
  | cons d rest ih =>
    simp only [insertAscByTimestamp]
    rcases h with _ | ⟨hd, hrest⟩
    split
    · refine List.Pairwise.cons ?_ (List.Pairwise.cons hd hrest)
      intro b hb
      rcases List.mem_cons.mp hb with rfl | hb
      · omega
      · have := hd b hb; omega
    · refine List.Pairwise.cons ?_ (ih hrest)
      intro b hb
      have hmem : b ∈ a :: rest := (perm_insertAscByTimestamp a rest).mem_iff.mp hb
      rcases List.mem_cons.mp hmem with rfl | hbm
      · omega
      · exact hd b hbm

theorem pairwise_sortAscByTimestamp (l : List ConnectivityCheck) :
    List.Pairwise (fun x y => x.timestamp ≤ y.timestamp) (sortAscByTimestamp l) := by
  induction l with
  | nil => simp [sortAscByTimestamp]
  | cons a rest ih => exact pairwise_insertAscByTimestamp a _ ih

theorem sublist_dedupeByTarget (l : List ConnectivityCheck) (seen : List String) :
    List.Sublist (dedupeByTarget l seen) l := by
  induction l generalizing seen with
  | nil => simp [dedupeByTarget]
  | cons c rest ih =>
    simp only [dedupeByTarget]
    split
    · exact (ih seen).cons c
    · exact (ih _).cons₂ c

theorem mem_of_mem_dedupeByTarget {r : ConnectivityCheck} {l : List ConnectivityCheck}
    {seen : List String} (h : r ∈ dedupeByTarget l seen) : r ∈ l :=
  (sublist_dedupeByTarget l seen).mem h

theorem target_notMem_of_mem_dedupeByTarget {r : ConnectivityCheck}
    {l : List ConnectivityCheck} {seen : List String}
    (h : r ∈ dedupeByTarget l seen) : r.target ∉ seen := by
  induction l generalizing seen with
  | nil => simp [dedupeByTarget] at h
  | cons c rest ih =>
    simp only [dedupeByTarget] at h
    by_cases hc : c.target ∈ seen
    · rw [if_pos hc] at h
      exact ih h
    · rw [if_neg hc] at h
      rcases List.mem_cons.mp h with rfl | h2
      · exact hc
      · have := ih h2
        intro hmem
        exact this (List.mem_cons_of_mem _ hmem)

theorem pairwise_target_ne_dedupeByTarget (l : List ConnectivityCheck) (seen : List String) :
    List.Pairwise (fun a b => a.target ≠ b.target) (dedupeByTarget l seen) := by
  induction l generalizing seen with
  | nil => simp [dedupeByTarget]
  | cons c rest ih =>
    simp only [dedupeByTarget]
    split
    · exact ih seen
    · refine List.Pairwise.cons ?_ (ih _)
      intro b hb
      have := target_notMem_of_mem_dedupeByTarget hb
      intro he
      exact this (he ▸ List.mem_cons_self _ _)

theorem timestamp_max_of_mem_dedupeByTarget {r c : ConnectivityCheck}
    {l : List ConnectivityCheck} {seen : List String}
    (hs : List.Pairwise (fun x y => y.timestamp ≤ x.timestamp) l)
    (hr : r ∈ dedupeByTarget l seen) (hc : c ∈ l) (ht : c.target = r.target) :
    c.timestamp ≤ r.timestamp := by
  induction l generalizing seen with
  | nil => simp at hc
  | cons a rest ih =>
    rcases hs with _ | ⟨ha, hrest⟩
    simp only [dedupeByTarget] at hr
    by_cases hmem : a.target ∈ seen
    · rw [if_pos hmem] at hr
      rcases List.mem_cons.mp hc with rfl | hc2
      · exact absurd (ht ▸ hmem) (target_notMem_of_mem_dedupeByTarget hr)
      · exact ih hrest hr hc2
    · rw [if_neg hmem] at hr
      rcases List.mem_cons.mp hr with rfl | hr2
      · rcases List.mem_cons.mp hc with rfl | hc2
        · exact le_refl _
        · exact ha c hc2
      · rcases List.mem_cons.mp hc with rfl | hc2
        · have hne := target_notMem_of_mem_dedupeByTarget hr2
          exact absurd (ht ▸ List.mem_cons_self _ _) hne
        · exact ih hrest hr2 hc2

theorem timestamp_max_of_find?_desc {r c : ConnectivityCheck} {l : List ConnectivityCheck}
    (hs : List.Pairwise (fun x y => y.timestamp ≤ x.timestamp) l)
    (hfind : l.find? hasPublicIp = some r) (hc : c ∈ l) (hp : hasPublicIp c = true) :
    c.timestamp ≤ r.timestamp := by
  induction l with
  | nil => simp at hc
  | cons a rest ih =>
    rcases hs with _ | ⟨ha, hrest⟩
    by_cases hpa : hasPublicIp a = true
    · rw [List.find?_cons_of_pos _ hpa] at hfind
      obtain rfl : a = r := by injection hfind
      rcases List.mem_cons.mp hc with rfl | hc2
      · exact le_refl _
      · exact ha c hc2
    · rw [List.find?_cons_of_neg _ hpa] at hfind
      rcases List.mem_cons.mp hc with rfl | hc2
      · exact absurd hp hpa
      · exact ih hrest hfind hc2

theorem spreadCopy_eq (l : List ConnectivityCheck) : spreadCopy l = l := by
  induction l with
  | nil => rfl
  | cons a rest ih =>
    simp only [spreadCopy, List.foldr_cons] at ih ⊢
    rw [ih]

theorem latencyTruthy_iff (c : ConnectivityCheck) :
    latencyTruthy c = true ↔ c.latencyMs ≠ none ∧ c.latencyMs ≠ some 0 := by
  cases h : c.latencyMs with
  | none => simp [latencyTruthy, h]
  | some v => simp [latencyTruthy, h]

theorem summarize_of_ne_nil {checks : List ConnectivityCheck} (h : checks ≠ []) :
    summarize checks =
      ⟨dedupeByTarget (sortDescByTimestamp checks) [],
       (sortDescByTimestamp checks).find? hasPublicIp⟩ := by
  have hlen : checks.length ≠ 0 := by
    intro h0
    exact h (List.length_eq_zero.mp h0)
  simp [summarize, hlen]

/-! Claim theorems about the heartbeat status classifier. -/

/-- C1 (amended): for every present nonzero lastSeen with lastSeen ≤ now,
with elapsedMinutes = floor(floor((now − lastSeen)/1000)/60), the classifier
returns the fresh tier (green, "Recently active") when elapsedMinutes < 1,
the slightly-stale tier (yellow, "Slightly stale") when 1 ≤ elapsedMinutes < 5
and the stale tier (red, "Unreachable") when elapsedMinutes ≥ 5; in
particular an elapsed time of exactly 90000 ms lands in slightly-stale and
exactly 301000 ms lands in stale. -/
theorem heartbeat_tier_thresholds (l now : Int) (h0 : l ≠ 0) (h1 : l ≤ now) :
    ((now - l) / 1000 / 60 < 1 →
      (getHeartbeatStatus (some l) now).color = Color.green
        ∧ (getHeartbeatStatus (some l) now).description = "Recently active")
    ∧ (1 ≤ (now - l) / 1000 / 60 → (now - l) / 1000 / 60 < 5 →
      (getHeartbeatStatus (some l) now).color = Color.yellow
        ∧ (getHeartbeatStatus (some l) now).description = "Slightly stale")
    ∧ (5 ≤ (now - l) / 1000 / 60 →
      (getHeartbeatStatus (some l) now).color = Color.red
        ∧ (getHeartbeatStatus (some l) now).description = "Unreachable")
    ∧ (getHeartbeatStatus (some 910000) 1000000).color = Color.yellow
    ∧ (getHeartbeatStatus (some 910000) 1000000).description = "Slightly stale"
    ∧ (getHeartbeatStatus (some 699000) 1000000).color = Color.red
    ∧ (getHeartbeatStatus (some 699000) 1000000).description = "Unreachable" := by
  refine ⟨fun hm => ?_, fun hm1 hm2 => ?_, fun hm => ?_,
    by decide, by decide, by decide, by decide⟩ <;>
  · simp only [getHeartbeatStatus, if_neg h0]
    split_ifs <;> first | exact ⟨rfl, rfl⟩ | omega

/-- C1 witness: instance of the threshold theorem at lastSeen 910000 and now
1000000 (elapsed 90000 ms, elapsedMinutes 1: slightly-stale). -/
theorem heartbeat_tier_thresholds_witness :
    (getHeartbeatStatus (some 910000) 1000000).color = Color.yellow
    ∧ (getHeartbeatStatus (some 910000) 1000000).description = "Slightly stale" :=
  ⟨(heartbeat_tier_thresholds 910000 1000000 (by decide) (by decide)).2.2.2.1,
   (heartbeat_tier_thresholds 910000 1000000 (by decide) (by decide)).2.2.2.2.1⟩

/-- C1 counterexample: lastSeen = 0 is a present timestamp with
0 ≤ 301000 and elapsedMinutes = 5 ≥ 5, yet the classifier does not return the
stale tier there (the JavaScript falsiness guard treats 0 as absent), so the
claim as stated over every present timestamp is false. -/
theorem heartbeat_tier_thresholds_counterexample :
    (0 : Int) ≤ 301000
    ∧ 5 ≤ ((301000 : Int) - 0) / 1000 / 60
    ∧ ¬ ((getHeartbeatStatus (some 0) 301000).color = Color.red
          ∧ (getHeartbeatStatus (some 0) 301000).description = "Unreachable") := by
  decide

/-- C4 (amended): for every present nonzero lastSeen and every now, including
clock skew (lastSeen greater than now) and negative or huge values, the
classifier is total (a total Lean function: it cannot throw) and returns
exactly the output of the spec-side computation from
elapsed = max(0, now − lastSeen). -/
theorem heartbeat_eq_specClamped (l now : Int) (h0 : l ≠ 0) :
    getHeartbeatStatus (some l) now = specClassifyClamped l now := by
  by_cases hd : 0 ≤ now - l
  · have hmax : max 0 (now - l) = now - l := max_eq_right hd
    simp only [getHeartbeatStatus, specClassifyClamped, heartbeatLabel, if_neg h0, hmax]
  · have hmax : max 0 (now - l) = 0 := max_eq_left (by omega)
    have hr : specClassifyClamped l now = ⟨Color.green, "Just now", "Recently active"⟩ := by
      simp [specClassifyClamped, hmax]
    have c1 : (now - l) / 1000 / 60 < 1 := by omega
    have c2 : (now - l) / 1000 < 60 := by omega
    have c3 : (now - l) / 1000 ≤ 1 := by omega
    have hl : getHeartbeatStatus (some l) now
        = ⟨Color.green, "Just now", "Recently active"⟩ := by
      simp [getHeartbeatStatus, heartbeatLabel, if_neg h0, if_pos c1, if_pos c2, if_pos c3]
    rw [hl, hr]

/-- C4 witness: clock-skew instance, lastSeen 5 and now 3. -/
theorem heartbeat_eq_specClamped_witness :
    getHeartbeatStatus (some 5) 3 = specClassifyClamped 5 3 :=
  heartbeat_eq_specClamped 5 3 (by decide)

/-- C4 counterexample: at the present timestamp lastSeen = 0 with now =
1000000 the code returns the unknown tier while the clamped spec computation
returns the stale tier, so the claim as stated over every present timestamp
is false. -/
theorem heartbeat_eq_specClamped_counterexample :
    getHeartbeatStatus (some 0) 1000000 ≠ specClassifyClamped 0 1000000 := by
  decide

/-- C5 (amended): the tier color and the description are deterministic
functions of now − lastSeen alone: they are invariant under shifting both
timestamps by any d that keeps the shifted timestamp nonzero; the label is
likewise shift-invariant whenever elapsedHours < 24, i.e. below the
calendar-date branch, which formats the absolute lastSeen timestamp. -/
theorem heartbeat_shift_invariance (l now d : Int) (h0 : l ≠ 0) (h1 : l + d ≠ 0) :
    (getHeartbeatStatus (some (l + d)) (now + d)).color
      = (getHeartbeatStatus (some l) now).color
    ∧ (getHeartbeatStatus (some (l + d)) (now + d)).description
      = (getHeartbeatStatus (some l) now).description
    ∧ ((now - l) / 1000 / 60 / 60 < 24 →
        (getHeartbeatStatus (some (l + d)) (now + d)).label
          = (getHeartbeatStatus (some l) now).label) := by
  have he : now + d - (l + d) = now - l := by ring
  simp only [getHeartbeatStatus, if_neg h0, if_neg h1, he]
  refine ⟨?_, ?_, fun hh => ?_⟩
  · split_ifs <;> rfl
  · split_ifs <;> rfl
  · split_ifs <;>
    · simp only [heartbeatLabel]
      split_ifs <;> first | rfl | omega

/-- C5 witness: instance of the shift-invariance theorem at lastSeen 1,
now 2, d 100. -/
theorem heartbeat_shift_invariance_witness :
    (getHeartbeatStatus (some 101) 102).color = (getHeartbeatStatus (some 1) 2).color
    ∧ (getHeartbeatStatus (some 101) 102).description
      = (getHeartbeatStatus (some 1) 2).description
    ∧ (getHeartbeatStatus (some 101) 102).label = (getHeartbeatStatus (some 1) 2).label :=
  ⟨(heartbeat_shift_invariance 1 2 100 (by decide) (by decide)).1,
   (heartbeat_shift_invariance 1 2 100 (by decide) (by decide)).2.1,
   (heartbeat_shift_invariance 1 2 100 (by decide) (by decide)).2.2 (by decide)⟩

/-- C5 counterexample: the full output is not a function of the difference
alone.  First, with an elapsed time of 60 days the label is a calendar date
of the absolute lastSeen timestamp, so shifting both inputs by one day
(d = 86400000) changes the output.  Second, shifting by d = −1 from
lastSeen = 1 reaches the falsiness guard at 0 and changes the tier. -/
theorem heartbeat_shift_invariance_counterexample :
    getHeartbeatStatus (some (1 + 86400000)) (5184000001 + 86400000)
      ≠ getHeartbeatStatus (some 1) 5184000001
    ∧ getHeartbeatStatus (some (1 + (-1))) (2 + (-1)) ≠ getHeartbeatStatus (some 1) 2 := by
  decide

/-- C6 (amended): for every present nonzero lastSeen ≤ now the label is
"Just now" when elapsedSeconds ≤ 1, the seconds form when
1 < elapsedSeconds < 60, the minutes form when elapsedSeconds ≥ 60 and
elapsedMinutes < 60, the hours form when elapsedMinutes ≥ 60 and
elapsedHours < 24, and the localized calendar-date string of lastSeen when
elapsedHours ≥ 24. -/
theorem heartbeat_label_rules (l now : Int) (h0 : l ≠ 0) (h1 : l ≤ now) :
    ((now - l) / 1000 ≤ 1 → (getHeartbeatStatus (some l) now).label = "Just now")
    ∧ (1 < (now - l) / 1000 → (now - l) / 1000 < 60 →
        (getHeartbeatStatus (some l) now).label = toString ((now - l) / 1000) ++ "s ago")
    ∧ (60 ≤ (now - l) / 1000 → (now - l) / 1000 / 60 < 60 →
        (getHeartbeatStatus (some l) now).label
          = toString ((now - l) / 1000 / 60) ++ "m ago")
    ∧ (60 ≤ (now - l) / 1000 / 60 → (now - l) / 1000 / 60 / 60 < 24 →
        (getHeartbeatStatus (some l) now).label
          = toString ((now - l) / 1000 / 60 / 60) ++ "h ago")
    ∧ (24 ≤ (now - l) / 1000 / 60 / 60 →
        (getHeartbeatStatus (some l) now).label = toLocaleDateString l) := by
  simp only [getHeartbeatStatus, heartbeatLabel, if_neg h0]
  refine ⟨fun h2 => ?_, fun h2 h3 => ?_, fun h2 h3 => ?_, fun h2 h3 => ?_, fun h2 => ?_⟩ <;>
    split_ifs <;> first | rfl | omega

/-- C6 witness: instance of the label theorem at lastSeen 910000 and now
1000000 (elapsed 90 s), giving the minutes form "1m ago". -/
theorem heartbeat_label_rules_witness :
    (getHeartbeatStatus (some 910000) 1000000).label = "1m ago" := by
  have h := (heartbeat_label_rules 910000 1000000 (by decide) (by decide)).2.2.1
    (by decide) (by decide)
  simpa using h

/-- C6 counterexample: lastSeen = 0 is a present timestamp with 0 ≤ 0 and
elapsedSeconds = 0 ≤ 1, yet the label is "Never" rather than "Just now", so
the claim as stated over every present timestamp is false. -/
theorem heartbeat_label_rules_counterexample :
    (0 : Int) ≤ 0
    ∧ ((0 : Int) - 0) / 1000 ≤ 1
    ∧ (getHeartbeatStatus (some 0) 0).label ≠ "Just now" := by
  decide

/-- C7: for every now, an absent lastSeen yields the unknown tier with label
"Never" and description "No heartbeat received"; the core functions are total
Lean functions (every input maps to a defined output), and the empty check
list maps to the empty/absent summary. -/
theorem heartbeat_absent_never (now : Int) :
    getHeartbeatStatus none now
      = ⟨Color.gray, "Never", "No heartbeat received"⟩
    ∧ summarize [] = ⟨[], none⟩ :=
  ⟨rfl, rfl⟩

/-- C10: for every now, the present timestamp lastSeen = 0 is classified
exactly like an absent timestamp — unknown tier, label "Never", description
"No heartbeat received" — and in particular not with the stale tier that the
elapsed-time threshold rules would assign at now = 301000. -/
theorem heartbeat_zero_timestamp_never (now : Int) :
    getHeartbeatStatus (some 0) now
      = ⟨Color.gray, "Never", "No heartbeat received"⟩
    ∧ (getHeartbeatStatus (some 0) 301000).color ≠ Color.red :=
  ⟨rfl, by decide⟩

/-! Claim theorems about the connectivity summarizer and latency series. -/

/-- C2: for every input list, `latestByTarget` is empty on the empty input,
contains at most one record per distinct target (the mapped targets are
nodup), every output record is an input record of maximum timestamp among the
input records sharing its target, and the output is ordered by descending
timestamp (the first-insertion order of the map over the descending-sorted
list). -/
theorem summarize_latestByTarget_spec (checks : List ConnectivityCheck)
    (r : ConnectivityCheck) (hr : r ∈ (summarize checks).latestByTarget) :
    (summarize ([] : List ConnectivityCheck)).latestByTarget = []
    ∧ ((summarize checks).latestByTarget.map (fun c => c.target)).Nodup
    ∧ r ∈ checks
    ∧ (∀ c ∈ checks, c.target = r.target → c.timestamp ≤ r.timestamp)
    ∧ List.Pairwise (fun a b => b.timestamp ≤ a.timestamp)
        (summarize checks).latestByTarget := by
  by_cases hnil : checks = []
  · subst hnil
    simp [summarize] at hr
  · rw [summarize_of_ne_nil hnil] at hr ⊢
    have hr2 : r ∈ dedupeByTarget (sortDescByTimestamp checks) [] := hr
    refine ⟨rfl, ?_, ?_, ?_, ?_⟩
    · exact List.Pairwise.map _ (fun a b hab => hab)
        (pairwise_target_ne_dedupeByTarget (sortDescByTimestamp checks) [])
    · exact (perm_sortDescByTimestamp checks).mem_iff.mp (mem_of_mem_dedupeByTarget hr2)
    · intro c hc hct
      exact timestamp_max_of_mem_dedupeByTarget (pairwise_sortDescByTimestamp checks) hr2
        ((perm_sortDescByTimestamp checks).mem_iff.mpr hc) hct
    · exact List.Pairwise.sublist (sublist_dedupeByTarget _ _)
        (pairwise_sortDescByTimestamp checks)

/-- C2 witness: on a list with two records for target 8.8.8.8 (timestamps 100
and 200) and one for 1.1.1.1 (timestamp 150), the 8.8.8.8 record kept in
`latestByTarget` is the timestamp-200 one, and it is an input record. -/
theorem summarize_latestByTarget_spec_witness :
    (⟨"8.8.8.8", 200, "reachable", none, none, none, none, none, none⟩ : ConnectivityCheck)
      ∈ [(⟨"8.8.8.8", 100, "reachable", none, none, none, none, none, none⟩ : ConnectivityCheck),
         ⟨"1.1.1.1", 150, "reachable", none, none, none, none, none, none⟩,
         ⟨"8.8.8.8", 200, "reachable", none, none, none, none, none, none⟩] :=
  (summarize_latestByTarget_spec
    [⟨"8.8.8.8", 100, "reachable", none, none, none, none, none, none⟩,
     ⟨"1.1.1.1", 150, "reachable", none, none, none, none, none, none⟩,
     ⟨"8.8.8.8", 200, "reachable", none, none, none, none, none, none⟩]
    ⟨"8.8.8.8", 200, "reachable", none, none, none, none, none, none⟩ (by decide)).2.2.1

/-- C3: whenever `latestWithIp` returns a record, that record is an input
record with a truthy (present, non-empty) public IP whose timestamp is
maximal among all qualifying input records, independent of input position;
`latestWithIp` is absent exactly on lists with no qualifying record (in
particular on the empty list), and present as soon as one qualifies. -/
theorem summarize_latestWithIp_spec (checks : List ConnectivityCheck)
    (r : ConnectivityCheck) (hr : (summarize checks).latestWithIp = some r) :
    r ∈ checks
    ∧ hasPublicIp r = true
    ∧ (∀ c ∈ checks, hasPublicIp c = true → c.timestamp ≤ r.timestamp)
    ∧ (∀ l : List ConnectivityCheck, (∀ c ∈ l, hasPublicIp c = false) →
        (summarize l).latestWithIp = none)
    ∧ (∀ l : List ConnectivityCheck, (∃ c ∈ l, hasPublicIp c = true) →
        ∃ q, (summarize l).latestWithIp = some q) := by
  by_cases hnil : checks = []
  · subst hnil
    simp [summarize] at hr
  · rw [summarize_of_ne_nil hnil] at hr
    have hr2 : (sortDescByTimestamp checks).find? hasPublicIp = some r := hr
    refine ⟨?_, ?_, ?_, ?_, ?_⟩
    · exact (perm_sortDescByTimestamp checks).mem_iff.mp (List.mem_of_find?_eq_some hr2)
    · exact List.find?_some hr2
    · intro c hc hpc
      exact timestamp_max_of_find?_desc (pairwise_sortDescByTimestamp checks) hr2
        ((perm_sortDescByTimestamp checks).mem_iff.mpr hc) hpc
    · intro l hl
      by_cases hn : l = []
      · subst hn; rfl
      · rw [summarize_of_ne_nil hn]
        show (sortDescByTimestamp l).find? hasPublicIp = none
        rw [List.find?_eq_none]
        intro x hx
        have hfx := hl x ((perm_sortDescByTimestamp l).mem_iff.mp hx)
        simp [hfx]
    · intro l hex
      obtain ⟨c, hc, hpc⟩ := hex
      have hn : l ≠ [] := by
        intro h
        subst h
        simp at hc
      rw [summarize_of_ne_nil hn]
      show ∃ q, (sortDescByTimestamp l).find? hasPublicIp = some q
      have hsome : ((sortDescByTimestamp l).find? hasPublicIp).isSome := by
        rw [List.find?_isSome]
        exact ⟨c, (perm_sortDescByTimestamp l).mem_iff.mpr hc, hpc⟩
      exact Option.isSome_iff_exists.mp hsome

/-- C3 witness: the only record carrying a public IP (timestamp 50, in the
middle of the input) is returned by `latestWithIp`: it is an input record and
its public IP is truthy. -/
theorem summarize_latestWithIp_spec_witness :
    (⟨"ipcheck", 50, "reachable", none, some "1.2.3.4", none, none, none, none⟩ :
        ConnectivityCheck)
      ∈ [(⟨"8.8.8.8", 100, "reachable", none, none, none, none, none, none⟩ :
            ConnectivityCheck),
         ⟨"ipcheck", 50, "reachable", none, some "1.2.3.4", none, none, none, none⟩,
         ⟨"1.1.1.1", 150, "reachable", none, none, none, none, none, none⟩]
    ∧ hasPublicIp
        ⟨"ipcheck", 50, "reachable", none, some "1.2.3.4", none, none, none, none⟩ = true :=
  ⟨(summarize_latestWithIp_spec
      [⟨"8.8.8.8", 100, "reachable", none, none, none, none, none, none⟩,
       ⟨"ipcheck", 50, "reachable", none, some "1.2.3.4", none, none, none, none⟩,
       ⟨"1.1.1.1", 150, "reachable", none, none, none, none, none, none⟩]
      ⟨"ipcheck", 50, "reachable", none, some "1.2.3.4", none, none, none, none⟩
      (by decide)).1,
   (summarize_latestWithIp_spec
      [⟨"8.8.8.8", 100, "reachable", none, none, none, none, none, none⟩,
       ⟨"ipcheck", 50, "reachable", none, some "1.2.3.4", none, none, none, none⟩,
       ⟨"1.1.1.1", 150, "reachable", none, none, none, none, none, none⟩]
      ⟨"ipcheck", 50, "reachable", none, some "1.2.3.4", none, none, none, none⟩
      (by decide)).2.1⟩

/-- C8: the chart records of `ConnectivityLatencyChart` are a permutation of
the input records filtered to the given target with truthy latency; a record
is charted iff it is an input record for the target whose `latencyMs` is
present and non-zero; the records are sorted ascending by timestamp; and the
series maps each record to its formatted-time/latency pair. -/
theorem latencySeries_spec (checks : List ConnectivityCheck) (target : String) :
    List.Perm (chartRecords checks target)
      (checks.filter (fun c => c.target == target && latencyTruthy c))
    ∧ List.Pairwise (fun a b => a.timestamp ≤ b.timestamp) (chartRecords checks target)
    ∧ (∀ c, c ∈ chartRecords checks target ↔
        c ∈ checks ∧ c.target = target ∧ c.latencyMs ≠ none ∧ c.latencyMs ≠ some 0)
    ∧ latencySeries checks target
      = (chartRecords checks target).map (fun c => ⟨formatTime c.timestamp, c.latencyMs⟩) := by
  unfold latencySeries chartRecords
  refine ⟨perm_sortAscByTimestamp _, pairwise_sortAscByTimestamp _, ?_, rfl⟩
  intro c
  constructor
  · intro hc
    have hm := (perm_sortAscByTimestamp _).mem_iff.mp hc
    obtain ⟨hmem, hpred⟩ := List.mem_filter.mp hm
    have h1 : (c.target == target) = true ∧ latencyTruthy c = true := by
      simpa [Bool.and_eq_true] using hpred
    refine ⟨hmem, by simpa using h1.1,
      ((latencyTruthy_iff c).mp h1.2).1, ((latencyTruthy_iff c).mp h1.2).2⟩
  · rintro ⟨hmem, ht, h1, h2⟩
    refine (perm_sortAscByTimestamp _).mem_iff.mpr (List.mem_filter.mpr ⟨hmem, ?_⟩)
    simp [ht, (latencyTruthy_iff c).mpr ⟨h1, h2⟩]

/-- C8 witness: a record for target 8.8.8.8 with latency 12 is charted, and
the characterization unfolds to concrete membership and field facts. -/
theorem latencySeries_spec_witness :
    (⟨"8.8.8.8", 100, "reachable", some 12, none, none, none, none, none⟩ :
        ConnectivityCheck)
      ∈ [(⟨"8.8.8.8", 100, "reachable", some 12, none, none, none, none, none⟩ :
            ConnectivityCheck),
         ⟨"8.8.8.8", 200, "reachable", some 0, none, none, none, none, none⟩,
         ⟨"1.1.1.1", 150, "reachable", some 7, none, none, none, none, none⟩]
    ∧ ("8.8.8.8" : String) = "8.8.8.8"
    ∧ (some 12 : Option Int) ≠ none
    ∧ (some 12 : Option Int) ≠ some 0 :=
  ((latencySeries_spec
      [⟨"8.8.8.8", 100, "reachable", some 12, none, none, none, none, none⟩,
       ⟨"8.8.8.8", 200, "reachable", some 0, none, none, none, none, none⟩,
       ⟨"1.1.1.1", 150, "reachable", some 7, none, none, none, none, none⟩]
      "8.8.8.8").2.2.1
    ⟨"8.8.8.8", 100, "reachable", some 12, none, none, none, none, none⟩).mp (by decide)

/-- C9: `summarize` is pure and deterministic: on the same input (or a
structurally equal copy) it yields structurally equal outputs, and the
mutation-tracking embedding returns the caller-supplied `checks` array
unchanged (the in-place sort is applied only to the spread copy). -/
theorem summarize_pure (checks checksCopy : List ConnectivityCheck)
    (h : checks = checksCopy) :
    (summarizeTracked checks).2 = checks
    ∧ summarize checks = summarize checksCopy
    ∧ (summarizeTracked checks).1 = summarize checks := by
  subst h
  refine ⟨?_, rfl, ?_⟩ <;>
    by_cases hc : checks.length = 0 <;>
      simp [summarizeTracked, summarize, spreadCopy_eq, hc]

/-- C9 witness: instance of the purity theorem on a concrete two-record
list. -/
theorem summarize_pure_witness :
    (summarizeTracked
      [⟨"8.8.8.8", 100, "reachable", some 12, none, none, none, none, none⟩,
       ⟨"1.1.1.1", 150, "timeout", none, none, none, none, none, none⟩]).2
    = [⟨"8.8.8.8", 100, "reachable", some 12, none, none, none, none, none⟩,
       ⟨"1.1.1.1", 150, "timeout", none, none, none, none, none, none⟩] :=
  (summarize_pure
    [⟨"8.8.8.8", 100, "reachable", some 12, none, none, none, none, none⟩,
     ⟨"1.1.1.1", 150, "timeout", none, none, none, none, none, none⟩]
    [⟨"8.8.8.8", 100, "reachable", some 12, none, none, none, none, none⟩,
     ⟨"1.1.1.1", 150, "timeout", none, none, none, none, none, none⟩] rfl).1
